import Mathlib

/-!
Verification of the RAG (retrieval-augmented generation) demo of this
repository: the `SimpleVectorStore` (simple-vector-store), the chunking of
`CodebaseRAGBuilder.splitIntoChunks` (build-rag.js), the initialization check
of `CodebaseRAGQuery` (query-rag.js) and the fallback logic of
`EnhancedRAGQuery.enhancedQuery` (enhanced-query.js).

Modelling conventions:
- JS numbers used in the vector math are embedded as real numbers (ℝ):
  floating-point rounding is not modelled, so the numerical claims are read
  over exact arithmetic (the spec states them "up to floating-point error").
- JS strings handled character-wise by the chunker are embedded as `List Char`
  (JS `length`, `split`, `trim`, concatenation become the corresponding list
  operations; all the repository's inputs are ASCII, where JS UTF-16 lengths
  and Lean character counts agree, and JS `trim` and whitespace-dropping on
  `Char.isWhitespace` agree).
- Metadata objects and `where`-filters are embedded as association lists of
  string keys to a value type `JSVal` covering the JS values that occur
  (strings, numbers, booleans, null; an absent `$eq` field behaves like
  `null`, and both are falsy).
- Async methods that can reject are embedded with `Except`; a method that
  never throws is a total function.
-/

/-- A JS value as stored in chunk metadata / filter conditions: a string, a
number, a boolean, or null (also standing for an absent field, which behaves
identically in the code paths modelled here). -/
inductive JSVal where
  | str (s : String)
  | num (q : ℚ)
  | bool (b : Bool)
  | null
deriving DecidableEq

/-- JS truthiness of a `JSVal`: `""`, `0`, `false` and `null` are falsy,
everything else is truthy. -/
def JSVal.truthy : JSVal → Bool
  | .str s => !(s == "")
  | .num q => !(q == 0)
  | .bool b => b
  | .null => false

/-- A JS metadata object: an association list from field names to values
(JS object keys are unique; lookup takes the first binding). -/
abbrev Metadata := List (String × JSVal)

/-- A `where` filter as passed to `SimpleVectorStore.query`: each entry
`(key, v)` embeds the JS condition object `{key: {$eq: v}}` (a condition with
no `$eq` field is embedded with `v = JSVal.null`, which the code treats the
same way: the clause is skipped). -/
abbrev WhereClause := List (String × JSVal)

/-- One filter condition of `SimpleVectorStore.query` (part_003 lines 70-75):
`if (condition.$eq) return meta[key] === condition.$eq; return true;`.
A falsy `$eq` value skips the check; for a truthy value, `meta[key]` must be
strictly equal to it (a missing key reads as `undefined`, which is `===` to no
truthy value, hence `false`). -/
def condMatches (meta : Metadata) (key : String) (v : JSVal) : Bool :=
  if v.truthy then
    match meta.lookup key with
    | some w => w == v
    | none => false
  else
    true

/-- `Object.entries(where).every(...)` of `SimpleVectorStore.query`:
every clause of the filter must pass `condMatches`. -/
def whereMatches (w : WhereClause) (meta : Metadata) : Bool :=
  w.all (fun p => condMatches meta p.1 p.2)

/-- The in-memory snapshot `this.data` of `SimpleVectorStore`: four parallel
sequences. -/
structure StoreData where
  documents : List String
  embeddings : List (List ℝ)
  metadata : List Metadata
  ids : List String

/-- The loop of `SimpleVectorStore.cosineSimilarity` (part_003 lines 47-51):
running over the paired entries it accumulates
`(dotProduct, normA, normB)`.  The JS loop runs for `i < vecA.length` reading
`vecB[i]`; this embedding truncates at the shorter list, which is faithful
whenever `vecA.length ≤ vecB.length` (an out-of-range read would produce NaN
in JS, outside this real-valued embedding; all uses pair equal-length
vectors). -/
def cosLoop : List ℝ → List ℝ → ℝ × ℝ × ℝ
  | a :: as, b :: bs =>
    let t := cosLoop as bs
    (a * b + t.1, a * a + t.2.1, b * b + t.2.2)
  | _, _ => (0, 0, 0)

/-- `SimpleVectorStore.cosineSimilarity` (part_003 lines 42-54):
`dotProduct / (Math.sqrt(normA) * Math.sqrt(normB))`. -/
noncomputable def cosineSimilarity (vecA vecB : List ℝ) : ℝ :=
  let t := cosLoop vecA vecB
  t.1 / (Real.sqrt t.2.1 * Real.sqrt t.2.2)

/-- Insert one scored entry into an already descending-sorted list, keeping
it before the first entry whose score is not larger: together with `sortDesc`
this realizes the unique stable descending ordering that
`similarities.sort((a, b) => b.similarity - a.similarity)` produces
(`Array.prototype.sort` is required to be stable). -/
noncomputable def insertDesc (x : ℕ × ℝ) : List (ℕ × ℝ) → List (ℕ × ℝ)
  | [] => [x]
  | y :: ys => if y.2 ≤ x.2 then x :: y :: ys else y :: insertDesc x ys

/-- Stable sort by descending similarity (part_003 line 63). -/
noncomputable def sortDesc : List (ℕ × ℝ) → List (ℕ × ℝ)
  | [] => []
  | x :: xs => insertDesc x (sortDesc xs)

/-- The result object of `SimpleVectorStore.query` (part_003 lines 82-87):
each field wraps the single result list in an outer singleton array, exactly
as the source does. -/
structure QueryResult where
  ids : List (List String)
  distances : List (List ℝ)
  metadatas : List (List Metadata)
  documents : List (List String)

/-- `SimpleVectorStore.query` (part_003 lines 56-88).
`embeddings.map((embedding, index) => ...)` is embedded as a map over
`List.range` reading each embedding by index (`getD` with a default that is
never used when the snapshot's sequences are aligned, as the builder
produces them); then the stable descending sort, the optional metadata
filter, `slice(0, limit)`, and the four projected output lists. -/
noncomputable def SimpleVectorStore.query (data : StoreData) (queryEmbedding : List ℝ)
    (limit : ℕ) (w : Option WhereClause) : QueryResult :=
  let similarities := (List.range data.embeddings.length).map
    (fun i => (i, cosineSimilarity queryEmbedding (data.embeddings.getD i [])))
  let sorted := sortDesc similarities
  let filteredResults := match w with
    | none => sorted
    | some wc => sorted.filter (fun r => whereMatches wc (data.metadata.getD r.1 []))
  let topResults := filteredResults.take limit
  { ids := [topResults.map (fun r => data.ids.getD r.1 "")]
    distances := [topResults.map (fun r => 1 - r.2)]
    metadatas := [topResults.map (fun r => data.metadata.getD r.1 [])]
    documents := [topResults.map (fun r => data.documents.getD r.1 "")] }

/-- `SimpleVectorStore.add` (part_003 lines 28-40), the operation the spec
calls `replaceAll`: it replaces the whole in-memory snapshot with copies of
the four argument sequences and persists that same snapshot
(`writeFileSync` of `this.data`; durability itself is not modelled, the
persisted content is the returned snapshot).  The `Except` channel embeds the
async method's ability to reject; the source body performs no validation and
never rejects. -/
def SimpleVectorStore.add (documents : List String) (embeddings : List (List ℝ))
    (metadata : List Metadata) (ids : List String) : Except String StoreData :=
  .ok { documents := documents, embeddings := embeddings,
        metadata := metadata, ids := ids }

/-- `SimpleVectorStore.count` (part_003 lines 90-92). -/
def SimpleVectorStore.count (data : StoreData) : ℕ :=
  data.documents.length

/-- JS `String.prototype.split(sep)` on a one-character separator, over
`List Char`: `"".split(s)` is `[""]`, a trailing separator yields a trailing
empty piece. -/
def jsSplit (sep : Char) : List Char → List (List Char)
  | [] => [[]]
  | c :: cs =>
    match jsSplit sep cs with
    | [] => [[]]
    | piece :: rest => if c = sep then [] :: piece :: rest else (c :: piece) :: rest

/-- JS `String.prototype.trim()` over `List Char`: drop whitespace from both
ends. -/
def jsTrim (l : List Char) : List Char :=
  ((l.dropWhile Char.isWhitespace).reverse.dropWhile Char.isWhitespace).reverse

/-- One chunk produced by `CodebaseRAGBuilder.splitIntoChunks`
(build-rag.js): its text and its 1-based inclusive line span. -/
structure Chunk where
  content : List Char
  startLine : ℕ
  endLine : ℕ
deriving DecidableEq

/-- `maxChunkSize` of `CodebaseRAGBuilder.splitIntoChunks`
(build-rag.js line 105). -/
def maxChunkSize : ℕ := 2000

/-- The accumulation loop of `CodebaseRAGBuilder.splitIntoChunks`
(build-rag.js lines 122-135).  State: chunks pushed so far, the running
buffer `currentChunk`, its `startLine`, and `currentLine`; the result is the
state after consuming all lines (the final `currentLine` is determined by the
number of lines, so it is not returned). -/
def chunkLoop : List (List Char) → List Chunk → List Char → ℕ → ℕ →
    List Chunk × List Char × ℕ
  | [], chunks, currentChunk, startLine, _ => (chunks, currentChunk, startLine)
  | line :: rest, chunks, currentChunk, startLine, currentLine =>
    if maxChunkSize < currentChunk.length + line.length ∧ 0 < currentChunk.length then
      chunkLoop rest (chunks ++ [⟨jsTrim currentChunk, startLine, currentLine - 1⟩])
        (line ++ ['\n']) currentLine (currentLine + 1)
    else
      chunkLoop rest chunks (currentChunk ++ line ++ ['\n']) startLine (currentLine + 1)

/-- `CodebaseRAGBuilder.splitIntoChunks` (build-rag.js lines 103-146):
content at most `maxChunkSize` characters becomes a single chunk holding the
raw content and spanning all lines; otherwise the accumulation loop runs over
`content.split('\n')` starting from line 1, and a final non-whitespace buffer
is pushed as a last chunk ending at the last line. -/
def splitIntoChunks (content : List Char) : List Chunk :=
  let lines := jsSplit '\n' content
  if content.length ≤ maxChunkSize then
    [⟨content, 1, lines.length⟩]
  else
    let s := chunkLoop lines [] [] 1 1
    if 0 < (jsTrim s.2.1).length then
      s.1 ++ [⟨jsTrim s.2.1, s.2.2, lines.length⟩]
    else
      s.1

/-- The error message `CodebaseRAGQuery.initialize` throws when the vector
store is empty (query-rag.js line 23); the spec's error taxonomy calls this
condition `IndexEmpty`. -/
def ragEmptyIndexMessage : String :=
  "RAG database not found. Please run \"npm run build-rag\" first."

/-- `CodebaseRAGQuery.initialize` (query-rag.js lines 13-30), after the
store's own loading: if `count() === 0` the method rejects with the
`IndexEmpty` message, otherwise initialization succeeds.  (Loading the store
from disk and loading the embedding model are I/O, not modelled; the store
snapshot is the function's argument.) -/
def ragInit (store : StoreData) : Except String Unit :=
  if SimpleVectorStore.count store = 0 then
    .error ragEmptyIndexMessage
  else
    .ok ()

/-- A search as issued through the CLI of query-rag.js: `initialize()`
followed by a store query (`CodebaseRAGQuery.query`); if initialization
rejects, the search rejects with the same error and never reaches the
store. -/
noncomputable def ragSearch (store : StoreData) (queryEmbedding : List ℝ)
    (limit : ℕ) (w : Option WhereClause) : Except String QueryResult :=
  match ragInit store with
  | .error e => .error e
  | .ok _ => .ok (SimpleVectorStore.query store queryEmbedding limit w)

/-- The status object returned by `EnhancedRAGQuery.checkOllamaStatus`
(enhanced-query.js lines 39-52). -/
structure OllamaStatus where
  running : Bool
  hasModel : Bool
  models : List String
  error : Option String
deriving DecidableEq

/-- The outcome of the availability probe `fetch(ollamaUrl + "/api/tags")`:
either an HTTP-ok response listing the installed model names, an HTTP error
response, or a rejected fetch (service unreachable / timeout) carrying the
rejection message. -/
inductive ProbeResult where
  | response (models : List String)
  | httpError (code : ℕ) (text : String)
  | netError (msg : String)
deriving DecidableEq

/-- `EnhancedRAGQuery.checkOllamaStatus` (enhanced-query.js lines 13-54) as a
function of the probe outcome: an ok response reports `running` with an exact
membership test of the configured model; a non-ok response throws
`HTTP status: statusText`, caught by the same method; a rejected fetch is
caught likewise; both report `running: false` with the caught message. -/
def checkOllamaStatus (model : String) : ProbeResult → OllamaStatus
  | .response models =>
    { running := true, hasModel := models.contains model, models := models, error := none }
  | .httpError code text =>
    { running := false, hasModel := false, models := [],
      error := some ("HTTP " ++ toString code ++ ": " ++ text) }
  | .netError msg =>
    { running := false, hasModel := false, models := [], error := some msg }

/-- One formatted retrieval result (`CodebaseRAGQuery.formatResults`,
query-rag.js lines 64-79). -/
structure FormattedResult where
  id : String
  score : ℝ
  metadata : Metadata
  document : Option String

/-- The object `EnhancedRAGQuery.enhancedQuery` returns
(enhanced-query.js lines 216, 226, 233, 242, 256, 260). -/
structure EnhancedResult where
  ragResults : List FormattedResult
  enhancedResponse : Option String
  error : Option String

/-- `EnhancedRAGQuery.enhancedQuery` (enhanced-query.js lines 194-262) as a
function of the retrieval results and the outcomes of its three external
interactions (the availability probe, the model self-test, and the LLM
generation call, the latter as the `Except` outcome of `enhanceWithLLM`).
Every branch returns; nothing is re-thrown to the caller. -/
def enhancedQuery (ragResults : List FormattedResult) (model : String)
    (probe : ProbeResult) (modelWorks : Bool) (gen : Except String String) :
    EnhancedResult :=
  if ragResults.length = 0 then
    { ragResults := [], enhancedResponse := none, error := some "No results found" }
  else
    let status := checkOllamaStatus model probe
    if status.running = false then
      { ragResults := ragResults, enhancedResponse := none, error := status.error }
    else if status.hasModel = false then
      { ragResults := ragResults, enhancedResponse := none, error := some "Model not found" }
    else if modelWorks = false then
      { ragResults := ragResults, enhancedResponse := none,
        error := some "Model not responding" }
    else
      match gen with
      | .ok text =>
        { ragResults := ragResults, enhancedResponse := some text, error := none }
      | .error msg =>
        { ragResults := ragResults, enhancedResponse := none, error := some msg }

/-- The similarity score `SimpleVectorStore.query` computes for the stored
entry at index `i`: the cosine similarity of the query vector with that
entry's embedding. -/
noncomputable def simAt (data : StoreData) (qv : List ℝ) (i : ℕ) : ℝ :=
  cosineSimilarity qv (data.embeddings.getD i [])

/-- The `similarities` array of `SimpleVectorStore.query` (part_003
lines 57-60): each stored index paired with its similarity score. -/
noncomputable def simsOf (data : StoreData) (qv : List ℝ) : List (ℕ × ℝ) :=
  (List.range data.embeddings.length).map (fun i => (i, simAt data qv i))

/-- The `topResults` list of `SimpleVectorStore.query` (part_003 lines
62-80): the scored indices after the stable descending sort, the optional
metadata filter, and `slice(0, limit)`. -/
noncomputable def topOf (data : StoreData) (qv : List ℝ) (limit : ℕ)
    (w : Option WhereClause) : List (ℕ × ℝ) :=
  (match w with
    | none => sortDesc (simsOf data qv)
    | some wc =>
      (sortDesc (simsOf data qv)).filter
        (fun r => whereMatches wc (data.metadata.getD r.1 []))).take limit

/-- The stored indices whose metadata passes a filter: the reference set a
query with that filter selects from. -/
def matchingIndices (data : StoreData) (wc : WhereClause) : List ℕ :=
  (List.range data.embeddings.length).filter
    (fun i => whereMatches wc (data.metadata.getD i []))

/-- Sum of squares of a vector's entries: the value `normA` (and `normB`)
that the loop of `cosineSimilarity` accumulates for a vector paired with
itself. -/
def sumSq : List ℝ → ℝ
  | [] => 0
  | a :: as => a * a + sumSq as

/-! ### Helper lemmas on the stable descending sort -/

theorem insertDesc_perm (x : ℕ × ℝ) (l : List (ℕ × ℝ)) :
    (insertDesc x l).Perm (x :: l) := by
  induction l with
  | nil => simp [insertDesc]
  | cons y ys ih =>
    by_cases h : y.2 ≤ x.2
    · simp [insertDesc, h]
    · simp only [insertDesc, if_neg h]
      exact ((ih.cons y).trans (List.Perm.swap x y ys))

theorem sortDesc_perm (l : List (ℕ × ℝ)) : (sortDesc l).Perm l := by
  induction l with
  | nil => simp [sortDesc]
  | cons x xs ih => exact (insertDesc_perm x (sortDesc xs)).trans (ih.cons x)

theorem mem_insertDesc {a x : ℕ × ℝ} {l : List (ℕ × ℝ)} :
    a ∈ insertDesc x l ↔ a = x ∨ a ∈ l := by
  rw [(insertDesc_perm x l).mem_iff, List.mem_cons]

theorem insertDesc_pairwise {x : ℕ × ℝ} {l : List (ℕ × ℝ)}
    (hl : l.Pairwise (fun a b => b.2 ≤ a.2)) :
    (insertDesc x l).Pairwise (fun a b => b.2 ≤ a.2) := by
  induction l with
  | nil => simp [insertDesc]
  | cons y ys ih =>
    rcases List.pairwise_cons.mp hl with ⟨hy, hys⟩
    by_cases h : y.2 ≤ x.2
    · simp only [insertDesc, if_pos h]
      refine List.pairwise_cons.mpr ⟨?_, hl⟩
      intro z hz
      rcases List.mem_cons.mp hz with rfl | hz
      · exact h
      · exact (hy z hz).trans h
    · simp only [insertDesc, if_neg h]
      refine List.pairwise_cons.mpr ⟨?_, ih hys⟩
      intro z hz
      rcases mem_insertDesc.mp hz with rfl | hz
      · exact (not_le.mp h).le
      · exact hy z hz

theorem sortDesc_pairwise (l : List (ℕ × ℝ)) :
    (sortDesc l).Pairwise (fun a b => b.2 ≤ a.2) := by
  induction l with
  | nil => simp [sortDesc]
  | cons x xs ih => exact insertDesc_pairwise ih

/-! ### Helper lemmas on `SimpleVectorStore.query` -/

theorem query_eq_topOf (data : StoreData) (qv : List ℝ) (limit : ℕ)
    (w : Option WhereClause) :
    SimpleVectorStore.query data qv limit w =
      { ids := [(topOf data qv limit w).map (fun r => data.ids.getD r.1 "")]
        distances := [(topOf data qv limit w).map (fun r => 1 - r.2)]
        metadatas := [(topOf data qv limit w).map (fun r => data.metadata.getD r.1 [])]
        documents := [(topOf data qv limit w).map (fun r => data.documents.getD r.1 "")] } :=
  rfl

theorem mem_simsOf {data : StoreData} {qv : List ℝ} {r : ℕ × ℝ}
    (h : r ∈ simsOf data qv) :
    r.1 < data.embeddings.length ∧ r.2 = simAt data qv r.1 := by
  rcases List.mem_map.mp h with ⟨i, hi, rfl⟩
  exact ⟨List.mem_range.mp hi, rfl⟩

theorem topOf_mem_sims {data : StoreData} {qv : List ℝ} {limit : ℕ}
    {w : Option WhereClause} {r : ℕ × ℝ} (h : r ∈ topOf data qv limit w) :
    r ∈ simsOf data qv := by
  have h' := List.mem_of_mem_take h
  cases w with
  | none => exact (sortDesc_perm _).mem_iff.mp h'
  | some wc =>
    exact (sortDesc_perm _).mem_iff.mp (List.mem_filter.mp h').1

theorem map_fst_simsOf (data : StoreData) (qv : List ℝ) :
    (simsOf data qv).map Prod.fst = List.range data.embeddings.length := by
  rw [simsOf, List.map_map]
  exact List.map_id _

/-! ### Helper lemmas for the cosine-similarity claims -/

theorem cosLoop_self (v : List ℝ) : cosLoop v v = (sumSq v, sumSq v, sumSq v) := by
  induction v with
  | nil => simp [cosLoop, sumSq]
  | cons a as ih => simp [cosLoop, sumSq, ih]

theorem sumSq_nonneg (v : List ℝ) : 0 ≤ sumSq v := by
  induction v with
  | nil => simp [sumSq]
  | cons a as ih => simpa [sumSq] using add_nonneg (mul_self_nonneg a) ih

theorem sumSq_pos {v : List ℝ} (h : ∃ x ∈ v, x ≠ 0) : 0 < sumSq v := by
  induction v with
  | nil => simp at h
  | cons a as ih =>
    rcases h with ⟨x, hx, hx0⟩
    rcases List.mem_cons.mp hx with rfl | hx
    · have : 0 < x * x := mul_self_pos.mpr hx0
      simpa [sumSq] using add_pos_of_pos_of_nonneg this (sumSq_nonneg as)
    · have : 0 < sumSq as := ih ⟨x, hx, hx0⟩
      simpa [sumSq] using add_pos_of_nonneg_of_pos (mul_self_nonneg a) this

/-! ### Claim C8: cosine similarity of a vector with itself -/

/-- C8: for every non-zero vector `v` (some entry is non-zero),
`cosineSimilarity v v` is exactly `1` in exact real arithmetic: the loop
accumulates the same sum of squares `s` for the dot product and both norms,
and `s / (√s * √s) = 1` for `s > 0`. -/
theorem cosineSimilarity_self_eq_one (v : List ℝ) (h : ∃ x ∈ v, x ≠ 0) :
    cosineSimilarity v v = 1 := by
  have hs : 0 < sumSq v := sumSq_pos h
  simp only [cosineSimilarity, cosLoop_self]
  rw [Real.mul_self_sqrt hs.le]
  exact div_self hs.ne'

/-- Witness for C8 at the concrete vector `[2]`. -/
theorem cosineSimilarity_self_eq_one_witness :
    (∃ x ∈ [(2 : ℝ)], x ≠ 0) ∧ cosineSimilarity [(2 : ℝ)] [(2 : ℝ)] = 1 :=
  ⟨⟨2, by simp, by norm_num⟩,
    cosineSimilarity_self_eq_one [(2 : ℝ)] ⟨2, by simp, by norm_num⟩⟩

/-! ### Claim C2: `replaceAll` (the source's `add`) and length mismatches -/

/-- C2 (counterexample): a call with four sequences of different lengths
(two documents, no embeddings, no metadata, no ids) does not fail: it
succeeds and installs the mismatched snapshot; no `ShapeMismatch` error
exists in the code. -/
theorem add_mismatched_lengths_succeeds :
    SimpleVectorStore.add ["a", "b"] [] [] [] =
        .ok { documents := ["a", "b"], embeddings := [], metadata := [], ids := [] } ∧
      (["a", "b"] : List String).length ≠ ([] : List (List ℝ)).length :=
  ⟨rfl, by decide⟩

/-- C2 (amended): `add` performs no length validation at all: for every four
argument sequences, matching in length or not, the call succeeds and replaces
the snapshot with exactly those sequences (which it also persists). -/
theorem add_replaces_unconditionally (documents : List String)
    (embeddings : List (List ℝ)) (metadata : List Metadata) (ids : List String) :
    SimpleVectorStore.add documents embeddings metadata ids =
      .ok { documents := documents, embeddings := embeddings,
            metadata := metadata, ids := ids } :=
  rfl

/-! ### Claim C4: searching an empty store -/

/-- C4: a search issued when the vector store holds zero entries
(`count() == 0`) fails with the recoverable condition the spec calls
`IndexEmpty`: the initialization check rejects — it does not crash and does
not return results — and the error carries the explicit, actionable message
telling the caller to run the build step first. -/
theorem ragSearch_empty_index (store : StoreData) (qv : List ℝ) (limit : ℕ)
    (w : Option WhereClause) (h : SimpleVectorStore.count store = 0) :
    ragSearch store qv limit w =
      .error "RAG database not found. Please run \"npm run build-rag\" first." := by
  simp [ragSearch, ragInit, h, ragEmptyIndexMessage]

/-- Witness for C4 at the empty snapshot. -/
theorem ragSearch_empty_index_witness :
    SimpleVectorStore.count { documents := [], embeddings := [], metadata := [], ids := [] } = 0 ∧
      ragSearch { documents := [], embeddings := [], metadata := [], ids := [] } [] 5 none =
        .error "RAG database not found. Please run \"npm run build-rag\" first." :=
  ⟨rfl, ragSearch_empty_index _ [] 5 none rfl⟩

/-! ### Claim C3: enhanced query with the generation service unreachable -/

/-- C3 (counterexample): with a non-empty retrieval result and the
availability probe rejecting with the message `"fetch failed"` (a fetch
network failure), `enhancedQuery` returns `error` equal to that raw message —
not the literal string `"ServiceUnavailable"` the claim states. -/
theorem enhancedQuery_unreachable_error_not_literal :
    (enhancedQuery [{ id := "c1", score := 1, metadata := [], document := none }]
        "llama3.2:latest" (.netError "fetch failed") false (.error "unused")).error =
        some "fetch failed" ∧
      some "fetch failed" ≠ (some "ServiceUnavailable" : Option String) := by
  constructor
  · rfl
  · decide

/-- C3 (amended): for every enhanced query whose retrieval stage returned a
non-empty result list, if the availability probe reports the service not
running (in particular when it is unreachable), the operation does not raise:
it returns the retrieved results unchanged, `enhancedResponse = null`, and
`error` equal to the probe's error message — the condition the spec's
taxonomy labels `ServiceUnavailable`, though the field holds the underlying
message rather than that literal. -/
theorem enhancedQuery_unreachable_falls_back (ragResults : List FormattedResult)
    (model : String) (probe : ProbeResult) (modelWorks : Bool)
    (gen : Except String String) (hne : ragResults.length ≠ 0)
    (hdown : (checkOllamaStatus model probe).running = false) :
    enhancedQuery ragResults model probe modelWorks gen =
      { ragResults := ragResults, enhancedResponse := none,
        error := (checkOllamaStatus model probe).error } := by
  simp [enhancedQuery, hne, hdown]

/-- Witness for C3's amended theorem: one retrieved result, probe rejected
with `"fetch failed"`. -/
theorem enhancedQuery_unreachable_falls_back_witness :
    ([{ id := "c1", score := 1, metadata := [], document := none }] :
        List FormattedResult).length ≠ 0 ∧
      (checkOllamaStatus "llama3.2:latest" (.netError "fetch failed")).running = false ∧
      enhancedQuery [{ id := "c1", score := 1, metadata := [], document := none }]
          "llama3.2:latest" (.netError "fetch failed") true (.ok "text") =
        { ragResults := [{ id := "c1", score := 1, metadata := [], document := none }],
          enhancedResponse := none,
          error := (checkOllamaStatus "llama3.2:latest" (.netError "fetch failed")).error } :=
  ⟨by simp, rfl,
    enhancedQuery_unreachable_falls_back _ _ _ true (.ok "text") (by simp) rfl⟩

/-! ### Claim C5: content that fits in one chunk -/

/-- C5: for every content whose length is at most `maxChunkSize` (the spec's
`maxChunkChars`, 2000), `splitIntoChunks` returns exactly one chunk holding
the whole content, spanning line 1 to the number of lines of the content
(the length of `content.split('\n')`). -/
theorem splitIntoChunks_small (content : List Char)
    (h : content.length ≤ maxChunkSize) :
    splitIntoChunks content = [⟨content, 1, (jsSplit '\n' content).length⟩] := by
  simp [splitIntoChunks, h]

/-- Witness for C5 at the two-character content `"ab"`. -/
theorem splitIntoChunks_small_witness :
    (['a', 'b'] : List Char).length ≤ maxChunkSize ∧
      splitIntoChunks ['a', 'b'] = [⟨['a', 'b'], 1, (jsSplit '\n' ['a', 'b']).length⟩] :=
  ⟨by decide, splitIntoChunks_small ['a', 'b'] (by decide)⟩

/-! ### Claim C9: falsy `$eq` values are ignored -/

/-- C9: a `where` clause whose required `$eq` value is falsy (empty string,
`0`, `false`, `null`/absent) is silently ignored: a query with that clause
present behaves exactly as the same query with the clause removed, so entries
not matching it may still be returned. -/
theorem query_falsy_clause_ignored (data : StoreData) (qv : List ℝ) (limit : ℕ)
    (key : String) (v : JSVal) (rest : WhereClause) (h : v.truthy = false) :
    SimpleVectorStore.query data qv limit (some ((key, v) :: rest)) =
      SimpleVectorStore.query data qv limit (some rest) := by
  have hw : ∀ m : Metadata, whereMatches ((key, v) :: rest) m = whereMatches rest m := by
    intro m
    simp [whereMatches, condMatches, h]
  simp only [SimpleVectorStore.query]
  rw [show (fun r : ℕ × ℝ => whereMatches ((key, v) :: rest) (data.metadata.getD r.1 []))
      = (fun r : ℕ × ℝ => whereMatches rest (data.metadata.getD r.1 [])) from
    funext fun r => hw _]

/-- Witness for C9: a one-entry store whose metadata has `t = "x"`, filtered
with the falsy requirement `t $eq ""`, versus no clause at all. -/
theorem query_falsy_clause_ignored_witness :
    (JSVal.str "").truthy = false ∧
      SimpleVectorStore.query
          { documents := ["d"], embeddings := [[1]],
            metadata := [[("t", JSVal.str "x")]], ids := ["id1"] }
          [1] 5 (some [("t", JSVal.str "")]) =
        SimpleVectorStore.query
          { documents := ["d"], embeddings := [[1]],
            metadata := [[("t", JSVal.str "x")]], ids := ["id1"] }
          [1] 5 (some []) :=
  ⟨rfl, query_falsy_clause_ignored _ [1] 5 "t" (JSVal.str "") [] rfl⟩

/-! ### Claim C10: the four output sequences stay aligned -/

/-- C10: for every snapshot whose four stored sequences have equal length,
every query returns four (singly-wrapped) output sequences of equal length
such that position `i` of each refers to the same stored index: there is one
selection list `sel` of stored indices, all in range, from which all four
outputs are read — id, distance (1 minus that entry's similarity), metadata
and document at a position always belong to the same entry. -/
theorem query_outputs_aligned (data : StoreData) (qv : List ℝ) (limit : ℕ)
    (w : Option WhereClause)
    (hlen : data.documents.length = data.embeddings.length ∧
      data.metadata.length = data.embeddings.length ∧
      data.ids.length = data.embeddings.length) :
    ∃ sel : List ℕ,
      (∀ i ∈ sel, i < data.embeddings.length) ∧
      (SimpleVectorStore.query data qv limit w).ids =
        [sel.map (fun i => data.ids.getD i "")] ∧
      (SimpleVectorStore.query data qv limit w).distances =
        [sel.map (fun i => 1 - simAt data qv i)] ∧
      (SimpleVectorStore.query data qv limit w).metadatas =
        [sel.map (fun i => data.metadata.getD i [])] ∧
      (SimpleVectorStore.query data qv limit w).documents =
        [sel.map (fun i => data.documents.getD i "")] := by
  clear hlen
  refine ⟨(topOf data qv limit w).map Prod.fst, ?_, ?_, ?_, ?_, ?_⟩
  · intro i hi
    rcases List.mem_map.mp hi with ⟨r, hr, rfl⟩
    exact (mem_simsOf (topOf_mem_sims hr)).1
  · rw [query_eq_topOf, List.map_map]; rfl
  · rw [query_eq_topOf, List.map_map]
    refine congrArg (fun l => [l]) (List.map_congr_left ?_)
    intro r hr
    simp [(mem_simsOf (topOf_mem_sims hr)).2]
  · rw [query_eq_topOf, List.map_map]; rfl
  · rw [query_eq_topOf, List.map_map]; rfl

/-- Witness for C10 at a concrete aligned two-entry snapshot. -/
theorem query_outputs_aligned_witness :
    ((["d1", "d2"] : List String).length = ([[1], [0]] : List (List ℝ)).length ∧
      ([[("t", JSVal.str "x")], []] : List Metadata).length =
        ([[1], [0]] : List (List ℝ)).length ∧
      (["i1", "i2"] : List String).length = ([[1], [0]] : List (List ℝ)).length) ∧
    ∃ sel : List ℕ,
      (∀ i ∈ sel,
        i < ({ documents := ["d1", "d2"], embeddings := [[1], [0]],
               metadata := [[("t", JSVal.str "x")], []],
               ids := ["i1", "i2"] } : StoreData).embeddings.length) ∧
      (SimpleVectorStore.query
          { documents := ["d1", "d2"], embeddings := [[1], [0]],
            metadata := [[("t", JSVal.str "x")], []], ids := ["i1", "i2"] }
          [1] 2 none).ids =
        [sel.map (fun i => (["i1", "i2"] : List String).getD i "")] ∧
      (SimpleVectorStore.query
          { documents := ["d1", "d2"], embeddings := [[1], [0]],
            metadata := [[("t", JSVal.str "x")], []], ids := ["i1", "i2"] }
          [1] 2 none).distances =
        [sel.map (fun i => 1 - simAt
          { documents := ["d1", "d2"], embeddings := [[1], [0]],
            metadata := [[("t", JSVal.str "x")], []], ids := ["i1", "i2"] } [1] i)] ∧
      (SimpleVectorStore.query
          { documents := ["d1", "d2"], embeddings := [[1], [0]],
            metadata := [[("t", JSVal.str "x")], []], ids := ["i1", "i2"] }
          [1] 2 none).metadatas =
        [sel.map (fun i => ([[("t", JSVal.str "x")], []] : List Metadata).getD i [])] ∧
      (SimpleVectorStore.query
          { documents := ["d1", "d2"], embeddings := [[1], [0]],
            metadata := [[("t", JSVal.str "x")], []], ids := ["i1", "i2"] }
          [1] 2 none).documents =
        [sel.map (fun i => (["d1", "d2"] : List String).getD i "")] :=
  ⟨⟨rfl, rfl, rfl⟩, query_outputs_aligned _ [1] 2 none ⟨rfl, rfl, rfl⟩⟩

/-! ### Helper lemmas on `jsSplit` and `jsTrim` -/

theorem jsSplit_length_pos (sep : Char) (l : List Char) :
    0 < (jsSplit sep l).length := by
  cases l with
  | nil => simp [jsSplit]
  | cons c cs =>
    simp only [jsSplit]
    rcases h : jsSplit sep cs with _ | ⟨piece, rest⟩
    · simp
    · by_cases hc : c = sep <;> simp [hc]

theorem jsTrim_nil : jsTrim [] = [] := rfl

theorem dropWhile_reverse_jsTrim (l : List Char) :
    (jsTrim l).reverse.dropWhile Char.isWhitespace = (jsTrim l).reverse := by
  simp only [jsTrim, List.reverse_reverse]
  exact List.dropWhile_idempotent _ _

theorem dropWhile_jsTrim (l : List Char) :
    (jsTrim l).dropWhile Char.isWhitespace = jsTrim l := by
  have hA : (l.dropWhile Char.isWhitespace).dropWhile Char.isWhitespace
      = l.dropWhile Char.isWhitespace := List.dropWhile_idempotent _ _
  have hdecomp : l.dropWhile Char.isWhitespace
      = jsTrim l ++ ((l.dropWhile Char.isWhitespace).reverse.takeWhile Char.isWhitespace).reverse := by
    have h1 : l.dropWhile Char.isWhitespace
        = ((l.dropWhile Char.isWhitespace).reverse.takeWhile Char.isWhitespace
            ++ (l.dropWhile Char.isWhitespace).reverse.dropWhile Char.isWhitespace).reverse := by
      rw [List.takeWhile_append_dropWhile, List.reverse_reverse]
    rw [List.reverse_append] at h1
    exact h1
  rcases hT : jsTrim l with _ | ⟨x, xt⟩
  · simp
  · rw [hT, List.cons_append] at hdecomp
    have hx : Char.isWhitespace x = false := by
      have h0 := List.dropWhile_eq_self_iff.mp hA
      rw [hdecomp] at h0
      have := h0 (by simp)
      simpa using this
    simp [List.dropWhile_cons, hx]

theorem jsTrim_idem (l : List Char) : jsTrim (jsTrim l) = jsTrim l := by
  conv_lhs => rw [jsTrim, dropWhile_jsTrim, dropWhile_reverse_jsTrim, List.reverse_reverse]

/-! ### The invariant of the chunk accumulation loop -/

/-- Running the accumulation loop preserves its invariant: line counters stay
in range, the pushed chunks are pairwise contiguous with sound 1-based
bounds, the last pushed chunk ends right before the current buffer's start
line, and every pushed chunk's content is trimmed. -/
theorem chunkLoop_invariant (lines : List (List Char)) :
    ∀ (chunks : List Chunk) (cur : List Char) (start cl : ℕ),
    1 ≤ start → start ≤ cl → (cur ≠ [] → start < cl) →
    List.Chain' (fun a b => a.endLine + 1 = b.startLine) chunks →
    (∀ c ∈ chunks, 1 ≤ c.startLine ∧ c.startLine ≤ c.endLine) →
    (∀ c, chunks.getLast? = some c → c.endLine + 1 = start) →
    (∀ c ∈ chunks, jsTrim c.content = c.content) →
    1 ≤ (chunkLoop lines chunks cur start cl).2.2 ∧
      (chunkLoop lines chunks cur start cl).2.2 ≤ cl + lines.length ∧
      ((chunkLoop lines chunks cur start cl).2.1 ≠ [] →
        (chunkLoop lines chunks cur start cl).2.2 < cl + lines.length) ∧
      List.Chain' (fun a b => a.endLine + 1 = b.startLine)
        (chunkLoop lines chunks cur start cl).1 ∧
      (∀ c ∈ (chunkLoop lines chunks cur start cl).1,
        1 ≤ c.startLine ∧ c.startLine ≤ c.endLine) ∧
      (∀ c, (chunkLoop lines chunks cur start cl).1.getLast? = some c →
        c.endLine + 1 = (chunkLoop lines chunks cur start cl).2.2) ∧
      (∀ c ∈ (chunkLoop lines chunks cur start cl).1, jsTrim c.content = c.content) := by
  induction lines with
  | nil =>
    intro chunks cur start cl h1 h2 h3 h4 h5 h6 h7
    simp only [chunkLoop, List.length_nil, Nat.add_zero]
    exact ⟨h1, h2, h3, h4, h5, h6, h7⟩
  | cons line rest ih =>
    intro chunks cur start cl h1 h2 h3 h4 h5 h6 h7
    simp only [chunkLoop]
    split
    case isTrue hcond =>
      have hcur : cur ≠ [] := by
        intro hnil
        rw [hnil] at hcond
        simp at hcond
      have hlt : start < cl := h3 hcur
      have H := ih (chunks ++ [⟨jsTrim cur, start, cl - 1⟩]) (line ++ ['\n']) cl (cl + 1)
        (by omega) (by omega) (fun _ => by omega)
        (by
          refine List.Chain'.append h4 (List.chain'_singleton _) ?_
          intro x hx y hy
          simp only [List.head?_cons, Option.mem_def, Option.some.injEq] at hy
          subst hy
          exact h6 x hx)
        (by
          intro c hc
          rcases List.mem_append.mp hc with hc | hc
          · exact h5 c hc
          · simp only [List.mem_singleton] at hc
            subst hc
            exact ⟨by dsimp only; omega, by dsimp only; omega⟩)
        (by
          intro c hc
          rw [List.getLast?_append] at hc
          simp only [List.getLast?_singleton, Option.or_some, Option.some.injEq] at hc
          subst hc
          dsimp only
          omega)
        (by
          intro c hc
          rcases List.mem_append.mp hc with hc | hc
          · exact h7 c hc
          · simp only [List.mem_singleton] at hc
            subst hc
            exact jsTrim_idem cur)
      rcases H with ⟨g1, g2, g3, g4, g5, g6, g7⟩
      refine ⟨g1, ?_, ?_, g4, g5, g6, g7⟩
      · simp only [List.length_cons]
        omega
      · intro hne
        have := g3 hne
        simp only [List.length_cons]
        omega
    case isFalse hcond =>
      have H := ih chunks (cur ++ line ++ ['\n']) start (cl + 1)
        h1 (by omega) (fun _ => by omega) h4 h5 h6 h7
      rcases H with ⟨g1, g2, g3, g4, g5, g6, g7⟩
      refine ⟨g1, ?_, ?_, g4, g5, g6, g7⟩
      · simp only [List.length_cons]
        omega
      · intro hne
        have := g3 hne
        simp only [List.length_cons]
        omega

theorem chain'_lt_of_contig : ∀ (l : List Chunk),
    List.Chain' (fun a b => a.endLine + 1 = b.startLine) l →
    (∀ c ∈ l, c.startLine ≤ c.endLine) →
    List.Chain' (fun a b : Chunk => a.startLine < b.startLine) l
  | [], _, _ => trivial
  | [_], _, _ => List.chain'_singleton _
  | a :: b :: t, hc, hb => by
    rw [List.chain'_cons] at hc ⊢
    refine ⟨?_, chain'_lt_of_contig (b :: t) hc.2
      (fun c hcm => hb c (List.mem_cons_of_mem a hcm))⟩
    have := hb a (List.mem_cons_self a (b :: t))
    omega

theorem pairwise_lt_of_contig (l : List Chunk)
    (hc : List.Chain' (fun a b => a.endLine + 1 = b.startLine) l)
    (hb : ∀ c ∈ l, c.startLine ≤ c.endLine) :
    List.Pairwise (fun a b : Chunk => a.startLine < b.startLine) l := by
  haveI : IsTrans Chunk (fun a b : Chunk => a.startLine < b.startLine) :=
    ⟨fun _ _ _ hab hbc => Nat.lt_trans hab hbc⟩
  exact List.chain'_iff_pairwise.mp (chain'_lt_of_contig l hc hb)

/-- The conclusions of the chunk-loop invariant instantiated at
`splitIntoChunks`' call and pushed through the final push of the remaining
buffer. -/
theorem splitIntoChunks_invariant (content : List Char) :
    List.Chain' (fun a b => a.endLine + 1 = b.startLine) (splitIntoChunks content) ∧
      (∀ c ∈ splitIntoChunks content, 1 ≤ c.startLine ∧ c.startLine ≤ c.endLine) ∧
      (∀ c ∈ splitIntoChunks content,
        content.length ≤ maxChunkSize ∨ jsTrim c.content = c.content) := by
  by_cases hsmall : content.length ≤ maxChunkSize
  · rw [splitIntoChunks_small content hsmall]
    refine ⟨List.chain'_singleton _, ?_, ?_⟩
    · intro c hc
      simp only [List.mem_singleton] at hc
      subst hc
      exact ⟨le_refl 1, jsSplit_length_pos '\n' content⟩
    · intro c _
      exact Or.inl hsmall
  · have H := chunkLoop_invariant (jsSplit '\n' content) [] [] 1 1
      (le_refl 1) (le_refl 1) (fun h => absurd rfl h)
      List.chain'_nil (by simp) (by simp) (by simp)
    rcases H with ⟨g1, g2, g3, g4, g5, g6, g7⟩
    have hout : splitIntoChunks content =
        if 0 < (jsTrim (chunkLoop (jsSplit '\n' content) [] [] 1 1).2.1).length then
          (chunkLoop (jsSplit '\n' content) [] [] 1 1).1 ++
            [⟨jsTrim (chunkLoop (jsSplit '\n' content) [] [] 1 1).2.1,
              (chunkLoop (jsSplit '\n' content) [] [] 1 1).2.2,
              (jsSplit '\n' content).length⟩]
        else (chunkLoop (jsSplit '\n' content) [] [] 1 1).1 := by
      simp [splitIntoChunks, hsmall]
    rw [hout]
    split
    next hne =>
      have hcur : (chunkLoop (jsSplit '\n' content) [] [] 1 1).2.1 ≠ [] := by
        intro h0
        rw [h0, jsTrim_nil] at hne
        simp at hne
      have hlt := g3 hcur
      refine ⟨?_, ?_, ?_⟩
      · refine List.Chain'.append g4 (List.chain'_singleton _) ?_
        intro x hx y hy
        simp only [List.head?_cons, Option.mem_def, Option.some.injEq] at hy
        subst hy
        exact g6 x hx
      · intro c hc
        rcases List.mem_append.mp hc with hc | hc
        · exact g5 c hc
        · simp only [List.mem_singleton] at hc
          subst hc
          exact ⟨g1, by dsimp only; omega⟩
      · intro c hc
        rcases List.mem_append.mp hc with hc | hc
        · exact Or.inr (g7 c hc)
        · simp only [List.mem_singleton] at hc
          subst hc
          exact Or.inr (jsTrim_idem _)
    next =>
      exact ⟨g4, g5, fun c hc => Or.inr (g7 c hc)⟩

/-! ### Claim C6: chunks are contiguous, 1-based, increasing -/

/-- C6: for every content (in particular whenever chunking produces two or
more chunks), consecutive chunks are contiguous and non-overlapping —
`chunk[i].endLine + 1 = chunk[i+1].startLine` — each chunk satisfies
`1 ≤ startLine ≤ endLine`, and start lines increase strictly monotonically
across chunks. -/
theorem splitIntoChunks_contiguous (content : List Char) :
    List.Chain' (fun a b => a.endLine + 1 = b.startLine) (splitIntoChunks content) ∧
      (∀ c ∈ splitIntoChunks content, 1 ≤ c.startLine ∧ c.startLine ≤ c.endLine) ∧
      List.Pairwise (fun a b : Chunk => a.startLine < b.startLine)
        (splitIntoChunks content) := by
  rcases splitIntoChunks_invariant content with ⟨h1, h2, _⟩
  exact ⟨h1, h2, pairwise_lt_of_contig _ h1 (fun c hc => (h2 c hc).2)⟩

/-! ### Claim C7: trimmed chunk contents -/

/-- C7 (counterexample): content that fits in a single chunk is returned raw,
not trimmed: chunking `" x "` yields one chunk whose content `" x "` still
has leading and trailing whitespace. -/
theorem splitIntoChunks_single_not_trimmed :
    splitIntoChunks [' ', 'x', ' '] = [⟨[' ', 'x', ' '], 1, 1⟩] ∧
      jsTrim [' ', 'x', ' '] ≠ [' ', 'x', ' '] := by
  constructor
  · decide
  · decide

/-- C7 (amended): every chunk produced on the multi-chunk path — content
longer than `maxChunkSize` — has trimmed content (no leading or trailing
whitespace: it equals its own trim); content that fits in one chunk is
returned raw, untrimmed. -/
theorem splitIntoChunks_trimmed_of_large (content : List Char)
    (h : maxChunkSize < content.length) :
    ∀ c ∈ splitIntoChunks content, jsTrim c.content = c.content := by
  intro c hc
  rcases (splitIntoChunks_invariant content).2.2 c hc with hsmall | ht
  · omega
  · exact ht

/-- Witness for C7's amended theorem at a 2001-character content. -/
theorem splitIntoChunks_trimmed_of_large_witness :
    maxChunkSize < (List.replicate 2001 'a').length ∧
      ∀ c ∈ splitIntoChunks (List.replicate 2001 'a'), jsTrim c.content = c.content :=
  ⟨by rw [List.length_replicate]; decide,
    splitIntoChunks_trimmed_of_large _ (by rw [List.length_replicate]; decide)⟩

/-! ### Helper lemmas for claim C1 -/

theorem topOf_some (data : StoreData) (qv : List ℝ) (k : ℕ) (wc : WhereClause) :
    topOf data qv k (some wc) =
      ((sortDesc (simsOf data qv)).filter
        (fun r => whereMatches wc (data.metadata.getD r.1 []))).take k :=
  rfl

theorem whereMatches_truthy_lookup {wc : WhereClause} {m : Metadata}
    (htr : ∀ q ∈ wc, q.2.truthy = true) (hm : whereMatches wc m = true) :
    ∀ key v, (key, v) ∈ wc → m.lookup key = some v := by
  intro key v hkv
  have hc : condMatches m key v = true := by
    have := List.all_eq_true.mp hm (key, v) hkv
    simpa using this
  have ht : v.truthy = true := htr (key, v) hkv
  rw [condMatches, if_pos ht] at hc
  rcases hl : m.lookup key with _ | w
  · rw [hl] at hc
    simp at hc
  · rw [hl] at hc
    have : w = v := by simpa using hc
    rw [this]

theorem filter_simsOf_eq (data : StoreData) (qv : List ℝ) (wc : WhereClause) :
    (simsOf data qv).filter (fun r => whereMatches wc (data.metadata.getD r.1 []))
      = (matchingIndices data wc).map (fun i => (i, simAt data qv i)) := by
  rw [simsOf, List.filter_map]
  rfl

/-! ### Claim C1: filtered top-k query -/

/-- C1 (amended): for every stored snapshot, query vector, limit `k` and
metadata-equality filter all of whose required values are truthy (falsy
values disable their clause, see the C9 theorem), the query returns the `k`
highest-similarity entries among those whose metadata equals every field
required by the filter, in descending similarity order, each with distance
`1 - similarity`; the filter runs after ranking and before truncation, and if
`k` is at least the number of matching entries, exactly the matching entries
are returned (no error).  Concretely: there is a selection `sel` of stored
indices such that the four outputs are read off `sel` in order, `sel` has no
duplicates, consists of matching entries only (their metadata equals every
required field), has length `min k (number of matching entries)`, is sorted
by descending similarity, is a permutation of all matching entries whenever
`k` bounds their number, and no unselected matching entry has a similarity
exceeding a selected one. -/
theorem query_filtered_topk (data : StoreData) (qv : List ℝ) (k : ℕ)
    (wc : WhereClause) (htr : ∀ q ∈ wc, q.2.truthy = true) :
    ∃ sel : List ℕ,
      (SimpleVectorStore.query data qv k (some wc)).ids =
        [sel.map (fun i => data.ids.getD i "")] ∧
      (SimpleVectorStore.query data qv k (some wc)).distances =
        [sel.map (fun i => 1 - simAt data qv i)] ∧
      (SimpleVectorStore.query data qv k (some wc)).metadatas =
        [sel.map (fun i => data.metadata.getD i [])] ∧
      (SimpleVectorStore.query data qv k (some wc)).documents =
        [sel.map (fun i => data.documents.getD i "")] ∧
      sel.Nodup ∧
      (∀ i ∈ sel, i ∈ matchingIndices data wc) ∧
      (∀ i ∈ sel, ∀ key v, (key, v) ∈ wc →
        (data.metadata.getD i []).lookup key = some v) ∧
      sel.length = min k (matchingIndices data wc).length ∧
      sel.Pairwise (fun i j => simAt data qv j ≤ simAt data qv i) ∧
      ((matchingIndices data wc).length ≤ k → sel.Perm (matchingIndices data wc)) ∧
      (∀ i ∈ sel, ∀ j ∈ matchingIndices data wc, j ∉ sel →
        simAt data qv j ≤ simAt data qv i) := by
  have hperm : ((sortDesc (simsOf data qv)).filter
      (fun r => whereMatches wc (data.metadata.getD r.1 []))).Perm
      ((matchingIndices data wc).map (fun i => (i, simAt data qv i))) := by
    have h1 := (sortDesc_perm (simsOf data qv)).filter
      (fun r => whereMatches wc (data.metadata.getD r.1 []))
    rw [filter_simsOf_eq] at h1
    exact h1
  have hFlen : ((sortDesc (simsOf data qv)).filter
      (fun r => whereMatches wc (data.metadata.getD r.1 []))).length
      = (matchingIndices data wc).length := by
    rw [hperm.length_eq, List.length_map]
  have hFpw : ((sortDesc (simsOf data qv)).filter
      (fun r => whereMatches wc (data.metadata.getD r.1 []))).Pairwise
      (fun a b : ℕ × ℝ => b.2 ≤ a.2) :=
    List.Pairwise.sublist (List.filter_sublist _) (sortDesc_pairwise _)
  have hmemF : ∀ r ∈ (sortDesc (simsOf data qv)).filter
      (fun r => whereMatches wc (data.metadata.getD r.1 [])),
      r ∈ simsOf data qv ∧ whereMatches wc (data.metadata.getD r.1 []) = true := by
    intro r hr
    have h := List.mem_filter.mp hr
    exact ⟨(sortDesc_perm _).mem_iff.mp h.1, h.2⟩
  have hmemTop : ∀ r ∈ ((sortDesc (simsOf data qv)).filter
      (fun r => whereMatches wc (data.metadata.getD r.1 []))).take k,
      r.1 ∈ matchingIndices data wc ∧ r.2 = simAt data qv r.1 := by
    intro r hr
    have h := hmemF r (List.mem_of_mem_take hr)
    have hs := mem_simsOf h.1
    exact ⟨List.mem_filter.mpr ⟨List.mem_range.mpr hs.1, h.2⟩, hs.2⟩
  have hnodup : ((((sortDesc (simsOf data qv)).filter
      (fun r => whereMatches wc (data.metadata.getD r.1 []))).take k).map
      Prod.fst).Nodup := by
    have hsub : ((((sortDesc (simsOf data qv)).filter
        (fun r => whereMatches wc (data.metadata.getD r.1 []))).take k).map
        Prod.fst).Sublist ((sortDesc (simsOf data qv)).map Prod.fst) :=
      List.Sublist.map Prod.fst ((List.take_sublist _ _).trans (List.filter_sublist _))
    have hpm := (sortDesc_perm (simsOf data qv)).map Prod.fst
    rw [map_fst_simsOf] at hpm
    exact List.Nodup.sublist hsub (hpm.nodup_iff.mpr (List.nodup_range _))
  refine ⟨(((sortDesc (simsOf data qv)).filter
    (fun r => whereMatches wc (data.metadata.getD r.1 []))).take k).map Prod.fst,
    ?_, ?_, ?_, ?_, hnodup, ?_, ?_, ?_, ?_, ?_, ?_⟩
  · rw [query_eq_topOf, topOf_some, List.map_map]
    rfl
  · rw [query_eq_topOf, topOf_some, List.map_map]
    refine congrArg (fun l => [l]) (List.map_congr_left ?_)
    intro r hr
    simp [(hmemTop r hr).2]
  · rw [query_eq_topOf, topOf_some, List.map_map]
    rfl
  · rw [query_eq_topOf, topOf_some, List.map_map]
    rfl
  · intro i hi
    rcases List.mem_map.mp hi with ⟨r, hr, rfl⟩
    exact (hmemTop r hr).1
  · intro i hi key v hkv
    rcases List.mem_map.mp hi with ⟨r, hr, rfl⟩
    have hw : whereMatches wc (data.metadata.getD r.1 []) = true :=
      (hmemF r (List.mem_of_mem_take hr)).2
    exact whereMatches_truthy_lookup htr hw key v hkv
  · rw [List.length_map, List.length_take, hFlen]
  · rw [List.pairwise_map]
    refine List.Pairwise.imp_of_mem ?_
      (List.Pairwise.sublist (List.take_sublist _ _) hFpw)
    intro a b ha hb hab
    rw [← (hmemTop a ha).2, ← (hmemTop b hb).2]
    exact hab
  · intro hk
    rw [List.take_of_length_le (hFlen ▸ hk)]
    have h2 := hperm.map Prod.fst
    rw [List.map_map] at h2
    have h3 : (matchingIndices data wc).map
        (Prod.fst ∘ fun i => (i, simAt data qv i)) = matchingIndices data wc := by
      rw [show (Prod.fst ∘ fun i => (i, simAt data qv i)) = id from rfl, List.map_id]
    rw [h3] at h2
    exact h2
  · intro i hi j hj hjn
    rcases List.mem_map.mp hi with ⟨r, hr, rfl⟩
    have hjF : (j, simAt data qv j) ∈ (sortDesc (simsOf data qv)).filter
        (fun r => whereMatches wc (data.metadata.getD r.1 [])) :=
      hperm.mem_iff.mpr (List.mem_map.mpr ⟨j, hj, rfl⟩)
    have hjtake : (j, simAt data qv j) ∉ ((sortDesc (simsOf data qv)).filter
        (fun r => whereMatches wc (data.metadata.getD r.1 []))).take k := by
      intro hmem
      exact hjn (List.mem_map.mpr ⟨(j, simAt data qv j), hmem, rfl⟩)
    have hjdrop : (j, simAt data qv j) ∈ ((sortDesc (simsOf data qv)).filter
        (fun r => whereMatches wc (data.metadata.getD r.1 []))).drop k := by
      have := hjF
      rw [← List.take_append_drop k ((sortDesc (simsOf data qv)).filter
        (fun r => whereMatches wc (data.metadata.getD r.1 [])))] at this
      rcases List.mem_append.mp this with h | h
      · exact absurd h hjtake
      · exact h
    have hsplit := List.pairwise_append.mp (by
      rw [List.take_append_drop k ((sortDesc (simsOf data qv)).filter
        (fun r => whereMatches wc (data.metadata.getD r.1 [])))]
      exact hFpw)
    have hle := hsplit.2.2 r hr (j, simAt data qv j) hjdrop
    calc simAt data qv j = (j, simAt data qv j).2 := rfl
      _ ≤ r.2 := hle
      _ = simAt data qv r.1 := (hmemTop r hr).2

/-- C1 (counterexample): with one stored entry whose metadata is
`t = "x"` and the filter requiring `t $eq ""`, the entry is returned even
though its metadata does not equal the required field value — the falsy
requirement `""` is ignored (cf. C9), contradicting the claim that only
entries whose metadata equals every required field are returned. -/
theorem query_filtered_topk_cex :
    (SimpleVectorStore.query
        { documents := ["d"], embeddings := [[1]],
          metadata := [[("t", JSVal.str "x")]], ids := ["id1"] }
        [1] 5 (some [("t", JSVal.str "")])).ids = [["id1"]] ∧
      ([("t", JSVal.str "x")] : Metadata).lookup "t" ≠ some (JSVal.str "") := by
  constructor
  · rfl
  · decide

/-- Witness for C1's amended theorem at a two-entry snapshot with the truthy
filter `t $eq "x"`. -/
theorem query_filtered_topk_witness :
    (∀ q ∈ ([("t", JSVal.str "x")] : WhereClause), q.2.truthy = true) ∧
    ∃ sel : List ℕ,
      (SimpleVectorStore.query
          { documents := ["d1", "d2"], embeddings := [[1], [0]],
            metadata := [[("t", JSVal.str "x")], [("t", JSVal.str "y")]],
            ids := ["i1", "i2"] }
          [1] 5 (some [("t", JSVal.str "x")])).ids =
        [sel.map (fun i => (["i1", "i2"] : List String).getD i "")] ∧
      (SimpleVectorStore.query
          { documents := ["d1", "d2"], embeddings := [[1], [0]],
            metadata := [[("t", JSVal.str "x")], [("t", JSVal.str "y")]],
            ids := ["i1", "i2"] }
          [1] 5 (some [("t", JSVal.str "x")])).distances =
        [sel.map (fun i => 1 - simAt
          { documents := ["d1", "d2"], embeddings := [[1], [0]],
            metadata := [[("t", JSVal.str "x")], [("t", JSVal.str "y")]],
            ids := ["i1", "i2"] } [1] i)] ∧
      (SimpleVectorStore.query
          { documents := ["d1", "d2"], embeddings := [[1], [0]],
            metadata := [[("t", JSVal.str "x")], [("t", JSVal.str "y")]],
            ids := ["i1", "i2"] }
          [1] 5 (some [("t", JSVal.str "x")])).metadatas =
        [sel.map (fun i =>
          ([[("t", JSVal.str "x")], [("t", JSVal.str "y")]] : List Metadata).getD i [])] ∧
      (SimpleVectorStore.query
          { documents := ["d1", "d2"], embeddings := [[1], [0]],
            metadata := [[("t", JSVal.str "x")], [("t", JSVal.str "y")]],
            ids := ["i1", "i2"] }
          [1] 5 (some [("t", JSVal.str "x")])).documents =
        [sel.map (fun i => (["d1", "d2"] : List String).getD i "")] ∧
      sel.Nodup ∧
      (∀ i ∈ sel, i ∈ matchingIndices
        { documents := ["d1", "d2"], embeddings := [[1], [0]],
          metadata := [[("t", JSVal.str "x")], [("t", JSVal.str "y")]],
          ids := ["i1", "i2"] } [("t", JSVal.str "x")]) ∧
      (∀ i ∈ sel, ∀ key v, (key, v) ∈ ([("t", JSVal.str "x")] : WhereClause) →
        (([[("t", JSVal.str "x")], [("t", JSVal.str "y")]] : List Metadata).getD i
          []).lookup key = some v) ∧
      sel.length = min 5 (matchingIndices
        { documents := ["d1", "d2"], embeddings := [[1], [0]],
          metadata := [[("t", JSVal.str "x")], [("t", JSVal.str "y")]],
          ids := ["i1", "i2"] } [("t", JSVal.str "x")]).length ∧
      sel.Pairwise (fun i j => simAt
          { documents := ["d1", "d2"], embeddings := [[1], [0]],
            metadata := [[("t", JSVal.str "x")], [("t", JSVal.str "y")]],
            ids := ["i1", "i2"] } [1] j ≤ simAt
          { documents := ["d1", "d2"], embeddings := [[1], [0]],
            metadata := [[("t", JSVal.str "x")], [("t", JSVal.str "y")]],
            ids := ["i1", "i2"] } [1] i) ∧
      ((matchingIndices
          { documents := ["d1", "d2"], embeddings := [[1], [0]],
            metadata := [[("t", JSVal.str "x")], [("t", JSVal.str "y")]],
            ids := ["i1", "i2"] } [("t", JSVal.str "x")]).length ≤ 5 →
        sel.Perm (matchingIndices
          { documents := ["d1", "d2"], embeddings := [[1], [0]],
            metadata := [[("t", JSVal.str "x")], [("t", JSVal.str "y")]],
            ids := ["i1", "i2"] } [("t", JSVal.str "x")])) ∧
      (∀ i ∈ sel, ∀ j ∈ matchingIndices
          { documents := ["d1", "d2"], embeddings := [[1], [0]],
            metadata := [[("t", JSVal.str "x")], [("t", JSVal.str "y")]],
            ids := ["i1", "i2"] } [("t", JSVal.str "x")], j ∉ sel →
        simAt
          { documents := ["d1", "d2"], embeddings := [[1], [0]],
            metadata := [[("t", JSVal.str "x")], [("t", JSVal.str "y")]],
            ids := ["i1", "i2"] } [1] j ≤ simAt
          { documents := ["d1", "d2"], embeddings := [[1], [0]],
            metadata := [[("t", JSVal.str "x")], [("t", JSVal.str "y")]],
            ids := ["i1", "i2"] } [1] i) :=
  ⟨by decide, query_filtered_topk _ [1] 5 [("t", JSVal.str "x")] (by decide)⟩
